import Mathlib

/-!
Verification development for the i3configger repository.

The definitions below are a shallow embedding of the code in
`src/i3configger/partials.py`, `src/i3configger/config.py` and
`src/i3configger/lib.py`.  Python dictionaries are modelled as ordered
association lists with unique keys (`Dict`), Python exceptions as
`Except` results, and Python strings as Lean `String`s manipulated
through their underlying character lists.
-/

namespace I3C

/-! ## Python dictionaries

A Python `dict` with `str` keys and `str` values, in insertion order.
Keys are unique in a real `dict`; theorems that rely on uniqueness take
it as an explicit `Nodup` hypothesis. -/

abbrev Dict := List (String × String)

/-- Membership test `k in d` of a Python dict. -/
def dictContains (d : Dict) (k : String) : Bool :=
  match d with
  | [] => false
  | kv :: rest => if kv.1 = k then true else dictContains rest k

/-- Lookup `d.get(k)` of a Python dict: the value of the first entry with
key `k`, or `None`. -/
def dictGet (d : Dict) (k : String) : Option String :=
  match d with
  | [] => none
  | kv :: rest => if kv.1 = k then some kv.2 else dictGet rest k

/-- Deletion `del d[k]` of a present key (all entries with key `k` are
removed; for a dict with unique keys this is exactly one entry). -/
def dictErase (d : Dict) (k : String) : Dict :=
  match d with
  | [] => []
  | kv :: rest => if kv.1 = k then dictErase rest k else kv :: dictErase rest k

/-- Assignment `d[k] = v` of a Python dict: replace the value in place if
the key exists (keeping insertion order), else append a new entry. -/
def dictSet (d : Dict) (k v : String) : Dict :=
  match d with
  | [] => [(k, v)]
  | kv :: rest => if kv.1 = k then (k, v) :: rest else kv :: dictSet rest k v

@[simp] theorem dictContains_nil (k : String) : dictContains [] k = false := rfl

@[simp] theorem dictContains_cons (kv : String × String) (d : Dict) (k : String) :
    dictContains (kv :: d) k = if kv.1 = k then true else dictContains d k := rfl

@[simp] theorem dictGet_nil (k : String) : dictGet [] k = none := rfl

@[simp] theorem dictGet_cons (kv : String × String) (d : Dict) (k : String) :
    dictGet (kv :: d) k = if kv.1 = k then some kv.2 else dictGet d k := rfl

@[simp] theorem dictErase_nil (k : String) : dictErase [] k = [] := rfl

@[simp] theorem dictErase_cons (kv : String × String) (d : Dict) (k : String) :
    dictErase (kv :: d) k
      = if kv.1 = k then dictErase d k else kv :: dictErase d k := rfl

theorem dictContains_iff (d : Dict) (k : String) :
    dictContains d k = true ↔ ∃ v, (k, v) ∈ d := by
  induction d with
  | nil => simp
  | cons kv rest ih =>
    by_cases h : kv.1 = k
    · simp only [dictContains_cons, if_pos h, true_iff]
      exact ⟨kv.2, by simp [← h]⟩
    · simp only [dictContains_cons, if_neg h, ih]
      constructor
      · rintro ⟨v, hv⟩; exact ⟨v, List.mem_cons_of_mem _ hv⟩
      · rintro ⟨v, hv⟩
        rcases List.mem_cons.mp hv with h1 | h1
        · exact absurd (congrArg Prod.fst h1.symm) h
        · exact ⟨v, h1⟩

theorem dictGet_eq_some_of_mem (d : Dict) (k v : String)
    (hnd : (d.map Prod.fst).Nodup) (hm : (k, v) ∈ d) :
    dictGet d k = some v := by
  induction d with
  | nil => simp at hm
  | cons kv rest ih =>
    simp only [List.map_cons, List.nodup_cons] at hnd
    rcases List.mem_cons.mp hm with h1 | h1
    · simp [← h1]
    · have hk : kv.1 ≠ k := by
        intro he
        exact hnd.1 (he ▸ (List.mem_map.mpr ⟨(k, v), h1, rfl⟩))
      simp [dictGet_cons, if_neg hk, ih hnd.2 h1]

theorem mem_of_dictGet_eq_some (d : Dict) (k v : String)
    (h : dictGet d k = some v) : (k, v) ∈ d := by
  induction d with
  | nil => simp [dictGet] at h
  | cons kv rest ih =>
    by_cases hk : kv.1 = k
    · simp only [dictGet_cons, if_pos hk, Option.some.injEq] at h
      cases kv
      simp_all
    · simp only [dictGet_cons, if_neg hk] at h
      exact List.mem_cons_of_mem _ (ih h)

theorem mem_dictErase (d : Dict) (k : String) (kv : String × String) :
    kv ∈ dictErase d k ↔ kv ∈ d ∧ kv.1 ≠ k := by
  induction d with
  | nil => simp
  | cons hd rest ih =>
    by_cases h : hd.1 = k
    · simp only [dictErase_cons, if_pos h, ih, List.mem_cons]
      constructor
      · rintro ⟨h1, h2⟩; exact ⟨Or.inr h1, h2⟩
      · rintro ⟨h1 | h1, h2⟩
        · exact absurd (h1 ▸ h) h2
        · exact ⟨h1, h2⟩
    · simp only [dictErase_cons, if_neg h, List.mem_cons, ih]
      constructor
      · rintro (h1 | ⟨h1, h2⟩)
        · exact ⟨Or.inl h1, h1 ▸ h⟩
        · exact ⟨Or.inr h1, h2⟩
      · rintro ⟨h1 | h1, h2⟩
        · exact Or.inl h1
        · exact Or.inr ⟨h1, h2⟩

theorem dictErase_map_fst_sublist (d : Dict) (k : String) :
    ((dictErase d k).map Prod.fst).Sublist (d.map Prod.fst) := by
  induction d with
  | nil => simp
  | cons hd rest ih =>
    by_cases h : hd.1 = k
    · simpa [dictErase_cons, if_pos h] using ih.cons _
    · simpa [dictErase_cons, if_neg h] using List.Sublist.cons₂ hd.1 ih

theorem dictErase_nodup (d : Dict) (k : String)
    (hnd : (d.map Prod.fst).Nodup) : ((dictErase d k).map Prod.fst).Nodup :=
  (dictErase_map_fst_sublist d k).nodup hnd

theorem dictContains_eq_false_iff (d : Dict) (k : String) :
    dictContains d k = false ↔ ∀ v, (k, v) ∉ d := by
  rw [← Bool.not_eq_true, dictContains_iff]
  push_neg
  rfl

theorem dictContains_dictErase_self (d : Dict) (k : String) :
    dictContains (dictErase d k) k = false := by
  rw [dictContains_eq_false_iff]
  intro v hv
  exact absurd rfl ((mem_dictErase d k (k, v)).mp hv).2

theorem isEmpty_false_of_dictContains (d : Dict) (k : String)
    (h : dictContains d k = true) : d.isEmpty = false := by
  cases d with
  | nil => simp [dictContains] at h
  | cons hd tl => rfl

/-! ## Character-level helpers for Python string operations -/

/-- Split a character list on a separator character; mirrors Python
`str.split(c)` (always returns at least one part). -/
def splitOnChar (c : Char) : List Char → List (List Char)
  | [] => [[]]
  | a :: rest =>
    match splitOnChar c rest with
    | [] => if a = c then [[], []] else [[a]]
    | h :: t => if a = c then [] :: h :: t else (a :: h) :: t

/-- Substring test; mirrors Python `pat in s`. -/
def containsSub (pat : List Char) : List Char → Bool
  | [] => pat.isEmpty
  | a :: rest => pat.isPrefixOf (a :: rest) || containsSub pat rest

/-- Whitespace in the sense of Python `str.strip` and the `\s` regex
class: space, tab, newline, carriage return, vertical tab, form feed. -/
def pySpace (c : Char) : Bool :=
  c = ' ' || c = '\t' || c = '\n' || c = '\r' || c = '\x0b' || c = '\x0c'

/-- Python `str.strip()`: drop leading and trailing whitespace. -/
def pyStrip (s : List Char) : List Char :=
  ((s.dropWhile pySpace).reverse.dropWhile pySpace).reverse

/-- Python `str.splitlines()` restricted to `\n` separators: like
splitting on `\n` but without a trailing empty part. -/
def pySplitlines (s : List Char) : List (List Char) :=
  match s with
  | [] => []
  | _ =>
    let parts := splitOnChar '\n' s
    if parts.getLast? = some [] then parts.dropLast else parts

/-- Stem of a file name as computed by `pathlib.PurePath.stem`: the name
without its last `.suffix`; a lone leading dot (for example `.conf`) does
not start a suffix. -/
def pyStemChars (n : List Char) : List Char :=
  match splitOnChar '.' n with
  | [] => n
  | [_] => n
  | [[], _] => n
  | parts => List.intercalate ['.'] parts.dropLast

/-- Suffix of a file name as computed by `pathlib.PurePath.suffix`
(including the dot, or empty). -/
def pySuffixChars (n : List Char) : List Char :=
  match splitOnChar '.' n with
  | [] => []
  | [_] => []
  | [[], _] => []
  | _ :: p2 :: rest => '.' :: (p2 :: rest).getLast (by simp)

/-! ## Fragment: the `Partial` class of partials.py

The source class is constructed from a `Path`; its identity is the file
name, and its content-derived views re-read the file.  We model a
fragment by its file name and its current raw file content. -/

structure Fragment where
  name : String
  raw : String
deriving DecidableEq

def DEFAULT_NAME : String := "default"

def DEFAULT_MARKER : String := "# i3configger default"

/-- Modelled from the spec: `base.SET_MARK` comes from the `base` module,
which is not present under `src/`; the spec describes `filtered` as
removing "internal-marker lines", the i3 `set` directive prefix. -/
def SET_MARK : String := "set "

/-- partials.py line 23: `self.selectors = self.path.stem.split('.')`. -/
def Fragment.selectors (f : Fragment) : List String :=
  (splitOnChar '.' (pyStemChars f.name.data)).map (fun cs => String.mk cs)

/-- partials.py line 24: `self.conditional = len(self.selectors) > 1`. -/
def Fragment.conditional (f : Fragment) : Bool :=
  f.selectors.length > 1

/-- partials.py line 25: `self.key = self.selectors[0] if self.conditional
else None`. -/
def Fragment.key (f : Fragment) : Option String :=
  match f.selectors with
  | a :: _ :: _ => some a
  | _ => none

/-- partials.py line 26: `self.value = self.selectors[1] if
self.conditional else None`. -/
def Fragment.value (f : Fragment) : Option String :=
  match f.selectors with
  | _ :: b :: _ => some b
  | _ => none

/-- partials.py lines 36-42 (`isDefault`): true iff the value part is
`default` or the raw content contains the default marker comment. -/
def Fragment.isDefault (f : Fragment) : Bool :=
  if f.value = some DEFAULT_NAME then true
  else if containsSub DEFAULT_MARKER.data f.raw.data then true
  else false

theorem Fragment.key_eq_none_of_not_conditional (f : Fragment)
    (h : f.conditional = false) : f.key = none := by
  unfold Fragment.conditional at h
  unfold Fragment.key
  match hs : f.selectors with
  | [] => rfl
  | [_] => rfl
  | _ :: _ :: _ => simp [hs] at h

theorem Fragment.conditional_of_key_eq_some (f : Fragment) (k : String)
    (h : f.key = some k) : f.conditional = true := by
  unfold Fragment.key at h
  unfold Fragment.conditional
  match hs : f.selectors with
  | [] => simp [hs] at h
  | [_] => simp [hs] at h
  | _ :: _ :: _ => simp [hs]

theorem Fragment.exists_key_value_of_conditional (f : Fragment)
    (h : f.conditional = true) : ∃ k v, f.key = some k ∧ f.value = some v := by
  unfold Fragment.conditional at h
  unfold Fragment.key Fragment.value
  match hs : f.selectors with
  | [] => simp [hs] at h
  | [_] => simp [hs] at h
  | a :: b :: _ => exact ⟨a, b, rfl, rfl⟩

/-! ## The selection engine: `select` of partials.py (lines 105-130)

The source mutates the caller's `selector` dict (`del selector[...]`) as
it selects fragments.  We model the loop by threading the pair
(selected fragments so far, current state of the selector dict) and
expose the final dict state, which is what the caller's dict holds after
the call returns (or raises). -/

/-- The nested `_select` helper (lines 110-113): append the fragment and,
when its key is in the selector dict, delete that key from it.  For an
unconditional fragment `key` is `None`, and `None in selector` is false
for a str-keyed dict. -/
def selStep (f : Fragment) (st : List Fragment × Dict) : List Fragment × Dict :=
  (st.1 ++ [f],
    match f.key with
    | some k => if dictContains st.2 k then dictErase st.2 k else st.2
    | none => st.2)

/-- Line 118: `if excludes and partial.key in excludes` — the skip applies
when `excludes` is a non-empty list containing the fragment key. -/
def exclCheck (excludes : Option (List String)) (f : Fragment) : Bool :=
  match excludes with
  | none => false
  | some l =>
    if l.isEmpty then false
    else match f.key with
      | some k => l.contains k
      | none => false

/-- Lines 121-122: `selector and partial.key in selector and
partial.value == selector.get(partial.key)`. -/
def selMatch (sel : Dict) (f : Fragment) : Bool :=
  if sel.isEmpty then false
  else match f.key with
    | some k => dictContains sel k && decide (f.value = dictGet sel k)
    | none => false

/-- The fragment loop of `select` (lines 115-127). -/
def selectLoop (excludes : Option (List String)) (conditionals defaults : Bool) :
    List Fragment → List Fragment × Dict → List Fragment × Dict
  | [], st => st
  | f :: rest, st =>
    selectLoop excludes conditionals defaults rest
      (if f.conditional then
        if exclCheck excludes f then st
        else if selMatch st.2 f then selStep f st
        else if defaults && f.isDefault then selStep f st
        else st
      else if conditionals then selStep f st else st)

/-- Runs the loop of `select` from an empty selection; the second
component is the state the caller's selector dict is left in. -/
def selectRun (fragments : List Fragment) (selector : Dict)
    (excludes : Option (List String)) (conditionals defaults : Bool) :
    List Fragment × Dict :=
  selectLoop excludes conditionals defaults fragments ([], selector)

/-- Return type of `select`: the source returns `selected[0]` (a bare
`Partial`) when exactly one fragment was selected and the list otherwise
(line 130). -/
inductive SelectResult where
  | one (f : Fragment)
  | many (fs : List Fragment)
deriving DecidableEq

/-- Line 130 packaging: `selected[0] if len(selected) == 1 else selected`. -/
def packList : List Fragment → SelectResult
  | [f] => .one f
  | l => .many l

/-- `select` of partials.py (lines 105-130).  A non-empty selector dict
left over after the loop raises `exc.ConfigError("not all selector
processed: %s", selector)`; the error carries the leftover dict. -/
def select (fragments : List Fragment) (selector : Dict)
    (excludes : Option (List String)) (conditionals defaults : Bool) :
    Except Dict SelectResult :=
  let r := selectRun fragments selector excludes conditionals defaults
  if r.2.isEmpty then .ok (packList r.1) else .error r.2

@[simp] theorem selectLoop_nil (excludes : Option (List String))
    (conditionals defaults : Bool) (st : List Fragment × Dict) :
    selectLoop excludes conditionals defaults [] st = st := rfl

theorem selectLoop_cons (excludes : Option (List String))
    (conditionals defaults : Bool) (f : Fragment) (rest : List Fragment)
    (st : List Fragment × Dict) :
    selectLoop excludes conditionals defaults (f :: rest) st
      = selectLoop excludes conditionals defaults rest
          (if f.conditional then
            if exclCheck excludes f then st
            else if selMatch st.2 f then selStep f st
            else if defaults && f.isDefault then selStep f st
            else st
          else if conditionals then selStep f st else st) := rfl

/-! ## Further dict lemmas used by the selection proofs -/

theorem dictContains_of_mem (d : Dict) (k v : String) (h : (k, v) ∈ d) :
    dictContains d k = true :=
  (dictContains_iff d k).mpr ⟨v, h⟩

theorem dictGet_isSome_of_contains (d : Dict) (k : String)
    (h : dictContains d k = true) : ∃ v, dictGet d k = some v := by
  induction d with
  | nil => simp at h
  | cons kv rest ih =>
    by_cases hk : kv.1 = k
    · exact ⟨kv.2, by simp [dictGet_cons, if_pos hk]⟩
    · simp only [dictContains_cons, if_neg hk] at h
      simpa [dictGet_cons, if_neg hk] using ih h

theorem dictContains_dictErase_ne (d : Dict) (k k' : String) (h : k' ≠ k) :
    dictContains (dictErase d k) k' = dictContains d k' := by
  induction d with
  | nil => simp
  | cons kv rest ih =>
    by_cases hk : kv.1 = k
    · have : kv.1 ≠ k' := by rw [hk]; exact fun he => h he.symm
      simp [dictErase_cons, if_pos hk, dictContains_cons, if_neg this, ih]
    · by_cases hk' : kv.1 = k'
      · simp [dictErase_cons, if_neg hk, dictContains_cons, if_pos hk']
      · simp [dictErase_cons, if_neg hk, dictContains_cons, if_neg hk', ih]

/-! ## Characterisation of the selection loop

`matchesSel S f` says the ambient selector map `S` requests exactly this
fragment: the fragment is conditional and `S` maps its key to its value.
`keepPred S` is the pointwise selection predicate that the loop realises
under the side conditions of `selectLoop_exact`. -/

def matchesSel (S : Dict) (f : Fragment) : Bool :=
  match f.key with
  | some k => decide (dictGet S k = f.value)
  | none => false

def keepPred (S : Dict) (f : Fragment) : Bool :=
  if f.conditional then f.isDefault || matchesSel S f else true

theorem matchesSel_eq_true (S : Dict) (f : Fragment) (k : String)
    (hk : f.key = some k) :
    matchesSel S f = true ↔ dictGet S k = f.value := by
  unfold matchesSel
  rw [hk]
  simp

theorem dictGet_agrees (S sel : Dict) (hS : (S.map Prod.fst).Nodup)
    (hsub : ∀ kv ∈ sel, kv ∈ S) (k : String)
    (h : dictContains sel k = true) : dictGet sel k = dictGet S k := by
  obtain ⟨v, hv⟩ := dictGet_isSome_of_contains sel k h
  have hmem : (k, v) ∈ sel := mem_of_dictGet_eq_some sel k v hv
  have : dictGet S k = some v := dictGet_eq_some_of_mem S k v hS (hsub _ hmem)
  rw [hv, this]

/-- Invariant lemma for the fragment loop of `select` with no excludes and
both inclusion flags on.  Provided every remaining entry of the working
selector dict still has a matching fragment ahead, requested fragments
have unconsumed keys, fragment (key, value) stems are pairwise distinct,
and every default fragment is either unrequested or itself requested, the
loop selects exactly the fragments satisfying `keepPred S` and consumes
the whole working dict. -/
theorem selectLoop_exact (S : Dict) (hS : (S.map Prod.fst).Nodup) :
    ∀ (rest : List Fragment) (sel : Dict) (acc : List Fragment),
    (∀ kv ∈ sel, kv ∈ S) →
    (∀ kv ∈ sel, ∃ f ∈ rest, f.key = some kv.1 ∧ f.value = some kv.2) →
    (∀ f ∈ rest, matchesSel S f = true → ∀ k, f.key = some k →
      dictContains sel k = true) →
    (∀ f ∈ rest, f.isDefault = true → ∀ k, f.key = some k →
      dictContains S k = false ∨ matchesSel S f = true) →
    (rest.Pairwise (fun f g => ∀ k, f.key = some k → g.key = some k →
      f.value ≠ g.value)) →
    selectLoop none true true rest (acc, sel)
      = (acc ++ rest.filter (keepPred S), []) := by
  intro rest
  induction rest with
  | nil =>
    intro sel acc hsub hmatch _ _ _
    cases sel with
    | nil => simp
    | cons kv tl =>
      obtain ⟨f, hf, _⟩ := hmatch kv (List.mem_cons_self kv tl)
      simp at hf
  | cons f rest ih =>
    intro sel acc hsub hmatch hcons hdef huniq
    have hexcl : exclCheck none f = false := rfl
    rw [selectLoop_cons]
    by_cases hc : f.conditional = true
    · obtain ⟨k, v, hk, hv⟩ := f.exists_key_value_of_conditional hc
      by_cases hm : matchesSel S f = true
      · -- the selector map requests exactly this fragment: it is selected
        -- and its key is deleted from the working dict
        have hcont : dictContains sel k = true :=
          hcons f (List.mem_cons_self f rest) hm k hk
        have hgetS : dictGet S k = f.value :=
          (matchesSel_eq_true S f k hk).mp hm
        have hget : dictGet sel k = dictGet S k :=
          dictGet_agrees S sel hS hsub k hcont
        have hne : sel.isEmpty = false := isEmpty_false_of_dictContains sel k hcont
        have hsm : selMatch sel f = true := by
          unfold selMatch
          rw [hne, hk]
          simp [hcont, hget, hgetS]
        rw [hc, hexcl]
        simp only [Bool.false_eq_true, if_false, if_true, hsm]
        have hstep : selStep f (acc, sel) = (acc ++ [f], dictErase sel k) := by
          unfold selStep
          rw [hk]
          simp [hcont]
        rw [hstep]
        have hkeep : keepPred S f = true := by
          unfold keepPred
          rw [hc, hm]
          simp
        rw [ih (dictErase sel k) (acc ++ [f])
          (fun kv hkv => hsub kv ((mem_dictErase sel k kv).mp hkv).1)
          (fun kv hkv => by
            obtain ⟨hkv1, hkv2⟩ := (mem_dictErase sel k kv).mp hkv
            obtain ⟨g, hg, hgk, hgv⟩ := hmatch kv hkv1
            rcases List.mem_cons.mp hg with rfl | hg'
            · rw [hk] at hgk
              exact absurd (Option.some.injEq _ _ ▸ hgk :
                k = kv.1).symm hkv2
            · exact ⟨g, hg', hgk, hgv⟩)
          (fun g hg hmg k' hgk' => by
            have hcg : dictContains sel k' = true :=
              hcons g (List.mem_cons_of_mem f hg) hmg k' hgk'
            have hkk' : k' ≠ k := by
              intro he
              have hgv : dictGet S k' = g.value :=
                (matchesSel_eq_true S g k' hgk').mp hmg
              have hfg : f.value ≠ g.value :=
                (List.pairwise_cons.mp huniq).1 g hg k hk (he ▸ hgk')
              exact hfg (hgetS.symm.trans (he ▸ hgv))
            rw [dictContains_dictErase_ne sel k k' hkk']
            exact hcg)
          (fun g hg => hdef g (List.mem_cons_of_mem f hg))
          ((List.pairwise_cons.mp huniq).2)]
        simp [hkeep, List.filter_cons]
      · by_cases hd : f.isDefault = true
        · -- an unrequested default fragment: selected via the defaults
          -- branch, and its key is absent from the working dict
          have hnotS : dictContains S k = false := by
            rcases hdef f (List.mem_cons_self f rest) hd k hk with h | h
            · exact h
            · exact absurd h hm
          have hnots : dictContains sel k = false := by
            cases hcs : dictContains sel k with
            | false => rfl
            | true =>
              obtain ⟨v0, hv0⟩ := dictGet_isSome_of_contains sel k hcs
              have := hsub _ (mem_of_dictGet_eq_some sel k v0 hv0)
              rw [dictContains_of_mem S k v0 this] at hnotS
              exact hnotS
          have hsm : selMatch sel f = false := by
            unfold selMatch
            cases he : sel.isEmpty with
            | true => simp
            | false => rw [hk]; simp [hnots]
          rw [hc, hexcl]
          simp only [Bool.false_eq_true, if_false, if_true, hsm, hd, Bool.and_true]
          have hstep : selStep f (acc, sel) = (acc ++ [f], sel) := by
            unfold selStep
            rw [hk]
            simp [hnots]
          rw [hstep]
          have hkeep : keepPred S f = true := by
            unfold keepPred
            rw [hc, hd]
            simp
          rw [ih sel (acc ++ [f]) hsub
            (fun kv hkv => by
              obtain ⟨g, hg, hgk, hgv⟩ := hmatch kv hkv
              rcases List.mem_cons.mp hg with rfl | hg'
              · rw [hk] at hgk
                have : kv.1 = k := (Option.some.injEq _ _ ▸ hgk).symm
                rw [← this] at hnotS
                rw [dictContains_of_mem S kv.1 kv.2 (hsub kv hkv)] at hnotS
                exact absurd hnotS (by simp)
              · exact ⟨g, hg', hgk, hgv⟩)
            (fun g hg => hcons g (List.mem_cons_of_mem f hg))
            (fun g hg => hdef g (List.mem_cons_of_mem f hg))
            ((List.pairwise_cons.mp huniq).2)]
          simp [hkeep, List.filter_cons]
        · -- neither requested nor default: skipped
          have hsm : selMatch sel f = false := by
            cases hcs : selMatch sel f with
            | false => rfl
            | true =>
              exfalso
              unfold selMatch at hcs
              cases he : sel.isEmpty with
              | true => rw [he] at hcs; simp at hcs
              | false =>
                rw [he, hk] at hcs
                simp only [Bool.false_eq_true, if_false, Bool.and_eq_true,
                  decide_eq_true_eq] at hcs
                have hget : dictGet sel k = dictGet S k :=
                  dictGet_agrees S sel hS hsub k hcs.1
                have : matchesSel S f = true :=
                  (matchesSel_eq_true S f k hk).mpr (by rw [← hget, ← hcs.2])
                exact hm this
          rw [hc, hexcl]
          have hdf : f.isDefault = false := by
            cases hdd : f.isDefault with
            | false => rfl
            | true => exact absurd hdd hd
          simp only [Bool.false_eq_true, if_false, if_true, hsm, hdf,
            Bool.and_false]
          have hkeep : keepPred S f = false := by
            unfold keepPred
            rw [hc, hdf]
            cases hmm : matchesSel S f with
            | false => simp
            | true => exact absurd hmm hm
          rw [ih sel acc hsub
            (fun kv hkv => by
              obtain ⟨g, hg, hgk, hgv⟩ := hmatch kv hkv
              rcases List.mem_cons.mp hg with rfl | hg'
              · exfalso
                have h1 : dictGet S kv.1 = some kv.2 :=
                  dictGet_eq_some_of_mem S kv.1 kv.2 hS (hsub kv hkv)
                have : matchesSel S g = true :=
                  (matchesSel_eq_true S g kv.1 hgk).mpr (by rw [h1, hgv])
                exact hm this
              · exact ⟨g, hg', hgk, hgv⟩)
            (fun g hg => hcons g (List.mem_cons_of_mem f hg))
            (fun g hg => hdef g (List.mem_cons_of_mem f hg))
            ((List.pairwise_cons.mp huniq).2)]
          simp [hkeep, List.filter_cons]
    · -- unconditional fragment: always selected (conditionals flag on)
      have hc' : f.conditional = false := by
        cases hcc : f.conditional with
        | false => rfl
        | true => exact absurd hcc hc
      have hkn : f.key = none := f.key_eq_none_of_not_conditional hc'
      rw [hc']
      simp only [Bool.false_eq_true, if_false, if_true]
      have hstep : selStep f (acc, sel) = (acc ++ [f], sel) := by
        unfold selStep
        rw [hkn]
      rw [hstep]
      have hkeep : keepPred S f = true := by
        unfold keepPred
        rw [hc']
        simp
      rw [ih sel (acc ++ [f]) hsub
        (fun kv hkv => by
          obtain ⟨g, hg, hgk, hgv⟩ := hmatch kv hkv
          rcases List.mem_cons.mp hg with rfl | hg'
          · rw [hkn] at hgk; exact absurd hgk (by simp)
          · exact ⟨g, hg', hgk, hgv⟩)
        (fun g hg => hcons g (List.mem_cons_of_mem f hg))
        (fun g hg => hdef g (List.mem_cons_of_mem f hg))
        ((List.pairwise_cons.mp huniq).2)]
      simp [hkeep, List.filter_cons]

/-! ## Concrete fragments used in witnesses and counterexamples -/

def fAX : Fragment := ⟨"a.x.conf", ""⟩

def fADef : Fragment := ⟨"a.default.conf", ""⟩

def fBDef : Fragment := ⟨"b.default.conf", ""⟩

def fBase : Fragment := ⟨"base.conf", ""⟩

/-- C1 (amended).  For every fragment list F in stable order and selector
map S with unique keys such that (i) every entry of S is matched by some
conditional fragment with that key and value, (ii) conditional fragments
have pairwise-distinct (key, value) stems, and (iii) every default
conditional fragment either has its key absent from S or is itself the
fragment S requests, `select(F, S, None)` with unconditional and default
inclusion enabled succeeds and selects, in the same stable order, exactly
one fragment per key of S (the one whose value equals S[key]), every
unconditional fragment, and every conditional fragment whose key is
absent from S and whose isDefault holds — packaged per line 130 as the
bare fragment when exactly one was selected and as the list otherwise.
Without hypothesis (iii) the original claim fails, see the
counterexample: a default fragment for a key of S consumes that key and
shadows or duplicates the requested fragment. -/
theorem C1_select_exact (F : List Fragment) (S : Dict)
    (hS : (S.map Prod.fst).Nodup)
    (hmatch : ∀ kv ∈ S, ∃ f ∈ F, f.key = some kv.1 ∧ f.value = some kv.2)
    (hdef : ∀ f ∈ F, f.isDefault = true → ∀ k, f.key = some k →
      dictContains S k = false ∨ matchesSel S f = true)
    (huniq : F.Pairwise (fun f g => ∀ k, f.key = some k → g.key = some k →
      f.value ≠ g.value)) :
    select F S none true true = .ok (packList (F.filter (keepPred S))) := by
  have hrun : selectRun F S none true true = (F.filter (keepPred S), []) := by
    unfold selectRun
    exact selectLoop_exact S hS F S [] (fun kv h => h) hmatch
      (fun f hf hm k hk => by
        obtain ⟨k0, v0, hk0, hv0⟩ :=
          f.exists_key_value_of_conditional (f.conditional_of_key_eq_some k hk)
        have h1 : dictGet S k = f.value := (matchesSel_eq_true S f k hk).mp hm
        rw [hv0] at h1
        exact dictContains_of_mem S k v0 (mem_of_dictGet_eq_some S k v0 h1))
      hdef huniq
  simp [select, hrun]

/-- Witness for C1 at a concrete input: fragments `a.x.conf` (requested),
`b.default.conf` (default, key not in S) and `base.conf` (unconditional),
with S = {a: x}: all three are selected, in order. -/
theorem C1_select_exact_witness :
    select [fAX, fBDef, fBase] [("a", "x")] none true true
      = Except.ok (SelectResult.many [fAX, fBDef, fBase]) := by
  have h := C1_select_exact [fAX, fBDef, fBase] [("a", "x")]
    (by decide) (by decide) (by decide) (by decide)
  rw [h]
  rfl

/-- C1 counterexample.  F = [`a.default.conf`, `a.x.conf`] (lexicographic
order), S = {a: x}: every key of S is matched by a conditional fragment
(`a.x.conf`), yet the result is the single fragment `a.default.conf` —
the defaults branch selects it first and deletes key `a` from the
selector dict, so the requested `a.x.conf` is dropped and a fragment
outside the claimed result set is returned. -/
theorem C1_counterexample :
    select [fADef, fAX] [("a", "x")] none true true
      = Except.ok (SelectResult.one fADef)
    ∧ fADef.value = some "default" ∧ fADef.value ≠ some "x"
    ∧ fAX.key = some "a" ∧ fAX.value = some "x" := by
  refine ⟨rfl, rfl, by decide, rfl, rfl⟩

/-! ## C2: mutation of the selector dict and idempotence -/

/-- Selection predicate realised by the loop when the selector dict is
empty: conditional fragments are kept exactly when not excluded, default
inclusion is on and they are defaults; unconditional fragments exactly
when the `conditionals` flag is set. -/
def emptySelKeep (excludes : Option (List String)) (conditionals defaults : Bool)
    (f : Fragment) : Bool :=
  if f.conditional then !exclCheck excludes f && (defaults && f.isDefault)
  else conditionals

theorem selMatch_empty (f : Fragment) : selMatch [] f = false := rfl

theorem selStep_empty (f : Fragment) (acc : List Fragment) :
    selStep f (acc, []) = (acc ++ [f], []) := by
  unfold selStep
  cases hk : f.key <;> simp

theorem selectLoop_empty_sel (excludes : Option (List String))
    (conditionals defaults : Bool) :
    ∀ (rest : List Fragment) (acc : List Fragment),
    selectLoop excludes conditionals defaults rest (acc, [])
      = (acc ++ rest.filter (emptySelKeep excludes conditionals defaults), []) := by
  intro rest
  induction rest with
  | nil => intro acc; simp
  | cons f rest ih =>
    intro acc
    rw [selectLoop_cons, selMatch_empty]
    by_cases hc : f.conditional = true
    · by_cases hx : exclCheck excludes f = true
      · have hkeep : emptySelKeep excludes conditionals defaults f = false := by
          unfold emptySelKeep
          rw [hc, hx]
          simp
        rw [hc, hx]
        simp only [if_true]
        rw [ih acc]
        simp [hkeep, List.filter_cons]
      · have hx' : exclCheck excludes f = false := by
          cases hxx : exclCheck excludes f with
          | false => rfl
          | true => exact absurd hxx hx
        rw [hc, hx']
        by_cases hdd : (defaults && f.isDefault) = true
        · have hkeep : emptySelKeep excludes conditionals defaults f = true := by
            unfold emptySelKeep
            rw [hc, hx', hdd]
            simp
          simp only [Bool.false_eq_true, if_false, if_true, hdd]
          rw [selStep_empty, ih (acc ++ [f])]
          simp [hkeep, List.filter_cons]
        · have hdd' : (defaults && f.isDefault) = false := by
            cases hxx : (defaults && f.isDefault) with
            | false => rfl
            | true => exact absurd hxx hdd
          have hkeep : emptySelKeep excludes conditionals defaults f = false := by
            unfold emptySelKeep
            rw [hc, hx', hdd']
            simp
          simp only [Bool.false_eq_true, if_false, if_true, hdd']
          rw [ih acc]
          simp [hkeep, List.filter_cons]
    · have hc' : f.conditional = false := by
        cases hcc : f.conditional with
        | false => rfl
        | true => exact absurd hcc hc
      rw [hc']
      have hkeep : emptySelKeep excludes conditionals defaults f = conditionals := by
        unfold emptySelKeep
        rw [hc']
        simp
      simp only [Bool.false_eq_true, if_false]
      by_cases hcl : conditionals = true
      · rw [if_pos hcl, selStep_empty, ih (acc ++ [f])]
        rw [hcl] at hkeep
        simp [hkeep, hcl, List.filter_cons]
      · have hcl' : conditionals = false := by
          cases hxx : conditionals with
          | false => rfl
          | true => exact absurd hxx hcl
        rw [if_neg hcl, ih acc]
        rw [hcl'] at hkeep
        simp [hkeep, hcl', List.filter_cons]

/-- C2 (amended).  `select` consumes its selectorMap argument in place
(lines 110-113 delete matched keys from the caller's dict), so calling it
twice with the same dict object is idempotent only when no entry is
consumed.  In particular with an empty selector map: the call succeeds,
returns the unconditional fragments (when enabled) and the non-excluded
default conditional fragments (when enabled) in stable order, leaves the
dict empty, and a repeated call on the dict object left behind by the
first call returns the identical result. -/
theorem C2_select_empty_map_idempotent (F : List Fragment)
    (excludes : Option (List String)) (conditionals defaults : Bool) :
    select F [] excludes conditionals defaults
        = .ok (packList (F.filter (emptySelKeep excludes conditionals defaults)))
    ∧ (selectRun F [] excludes conditionals defaults).2 = []
    ∧ select F (selectRun F [] excludes conditionals defaults).2
          excludes conditionals defaults
        = select F [] excludes conditionals defaults := by
  have hrun : selectRun F [] excludes conditionals defaults
      = (F.filter (emptySelKeep excludes conditionals defaults), []) :=
    selectLoop_empty_sel excludes conditionals defaults F []
  refine ⟨?_, ?_, ?_⟩
  · simp [select, hrun]
  · rw [hrun]
  · rw [hrun]

/-- C2 counterexample.  With F = [`a.x.conf`] and the dict S = {a: x},
the first call returns the fragment and leaves the caller's dict empty
(the key was deleted in place); a second call with the same — now
empty — dict object returns the empty list instead, so `select` mutates
its selectorMap argument and is not idempotent. -/
theorem C2_counterexample :
    select [fAX] [("a", "x")] none true true = Except.ok (SelectResult.one fAX)
    ∧ (selectRun [fAX] [("a", "x")] none true true).2 = []
    ∧ select [fAX] (selectRun [fAX] [("a", "x")] none true true).2 none true true
        = Except.ok (SelectResult.many [])
    ∧ (Except.ok (SelectResult.many []) : Except Dict SelectResult)
        ≠ Except.ok (SelectResult.one fAX) := by
  refine ⟨rfl, rfl, rfl, ?_⟩
  intro h
  injection h with h2
  exact SelectResult.noConfusion h2

/-! ## C3: a selector entry with no matching fragment -/

/-- Invariant lemma: an entry (k, v) of the working selector dict that no
remaining fragment can consume — no fragment carries (key k, value v),
and every default fragment with key k is excluded — survives the loop. -/
theorem selectLoop_unconsumed (excludes : Option (List String)) (k v : String) :
    ∀ (rest : List Fragment) (sel : Dict) (acc : List Fragment),
    (k, v) ∈ sel →
    (∀ v', (k, v') ∈ sel → v' = v) →
    (∀ f ∈ rest, f.key = some k → f.value ≠ some v) →
    (∀ f ∈ rest, f.key = some k → f.isDefault = true →
      exclCheck excludes f = true) →
    (k, v) ∈ (selectLoop excludes true true rest (acc, sel)).2 := by
  intro rest
  induction rest with
  | nil => intro sel acc hmem _ _ _; simpa using hmem
  | cons f rest ih =>
    intro sel acc hmem huniq hnoval hnodef
    rw [selectLoop_cons]
    have htail_noval : ∀ f' ∈ rest, f'.key = some k → f'.value ≠ some v :=
      fun f' hf' => hnoval f' (List.mem_cons_of_mem f hf')
    have htail_nodef : ∀ f' ∈ rest, f'.key = some k → f'.isDefault = true →
        exclCheck excludes f' = true :=
      fun f' hf' => hnodef f' (List.mem_cons_of_mem f hf')
    -- once the currently examined fragment is known not to carry key k,
    -- selecting it can only delete other keys, so (k, v) stays put
    have hselected : ∀ k', f.key = some k' → k' ≠ k →
        (k, v) ∈ (selectLoop excludes true true rest (selStep f (acc, sel))).2 := by
      intro k' hk' hkk
      by_cases hcc : dictContains sel k' = true
      · have hstep : selStep f (acc, sel) = (acc ++ [f], dictErase sel k') := by
          unfold selStep
          rw [hk']
          simp [hcc]
        rw [hstep]
        exact ih (dictErase sel k') (acc ++ [f])
          ((mem_dictErase sel k' (k, v)).mpr ⟨hmem, fun he => hkk he.symm⟩)
          (fun v' hv' => huniq v' ((mem_dictErase sel k' (k, v')).mp hv').1)
          htail_noval htail_nodef
      · have hstep : selStep f (acc, sel) = (acc ++ [f], sel) := by
          unfold selStep
          rw [hk']
          simp [hcc]
        rw [hstep]
        exact ih sel (acc ++ [f]) hmem huniq htail_noval htail_nodef
    by_cases hc : f.conditional = true
    · obtain ⟨k', v', hk', hv'⟩ := f.exists_key_value_of_conditional hc
      by_cases hx : exclCheck excludes f = true
      · rw [hc, hx]
        simp only [if_true]
        exact ih sel acc hmem huniq htail_noval htail_nodef
      · have hx' : exclCheck excludes f = false := by
          cases hxx : exclCheck excludes f with
          | false => rfl
          | true => exact absurd hxx hx
        by_cases hsm : selMatch sel f = true
        · -- selected through the selector-match branch: its (key, value)
          -- differs from (k, v), so the key deleted is not k
          have hkk : k' ≠ k := by
            intro he
            subst he
            unfold selMatch at hsm
            cases he2 : sel.isEmpty with
            | true => rw [he2] at hsm; simp at hsm
            | false =>
              rw [he2, hk'] at hsm
              simp only [Bool.false_eq_true, if_false, Bool.and_eq_true,
                decide_eq_true_eq] at hsm
              obtain ⟨v0, hv0⟩ := dictGet_isSome_of_contains sel k' hsm.1
              have hv0v : v0 = v := huniq v0 (mem_of_dictGet_eq_some sel k' v0 hv0)
              exact hnoval f (List.mem_cons_self f rest) hk'
                (by rw [hsm.2, hv0, hv0v])
          rw [hc, hx', hsm]
          simp only [Bool.false_eq_true, if_false, if_true]
          exact hselected k' hk' hkk
        · have hsm' : selMatch sel f = false := by
            cases hxx : selMatch sel f with
            | false => rfl
            | true => exact absurd hxx hsm
          by_cases hd : f.isDefault = true
          · -- selected through the defaults branch: a default fragment
            -- with key k would have been excluded, so k' ≠ k
            have hkk : k' ≠ k := by
              intro he
              subst he
              rw [hnodef f (List.mem_cons_self f rest) hk' hd] at hx'
              exact Bool.noConfusion hx'
            rw [hc, hx', hsm', hd]
            simp only [Bool.false_eq_true, if_false, if_true, Bool.and_true]
            exact hselected k' hk' hkk
          · have hd' : f.isDefault = false := by
              cases hxx : f.isDefault with
              | false => rfl
              | true => exact absurd hxx hd
            rw [hc, hx', hsm', hd']
            simp only [Bool.false_eq_true, if_false, Bool.and_false]
            exact ih sel acc hmem huniq htail_noval htail_nodef
    · have hc' : f.conditional = false := by
        cases hcc : f.conditional with
        | false => rfl
        | true => exact absurd hcc hc
      have hkn : f.key = none := f.key_eq_none_of_not_conditional hc'
      rw [hc']
      simp only [Bool.false_eq_true, if_false, if_true]
      have hstep : selStep f (acc, sel) = (acc ++ [f], sel) := by
        unfold selStep
        rw [hkn]
      rw [hstep]
      exact ih sel (acc ++ [f]) hmem huniq htail_noval htail_nodef

/-- Relates two entries of a Python dict (unique keys): same key, same
value. -/
theorem dict_value_unique (S : Dict) (hS : (S.map Prod.fst).Nodup)
    (k v v' : String) (h : (k, v) ∈ S) (h' : (k, v') ∈ S) : v' = v := by
  have h1 := dictGet_eq_some_of_mem S k v hS h
  have h2 := dictGet_eq_some_of_mem S k v' hS h'
  rw [h1] at h2
  exact (Option.some.inj h2).symm

/-- C3 (amended).  If the selector map S (unique keys) contains an entry
(k, v) such that no conditional fragment of F carries (key k, value v)
and every default fragment with key k is skipped by the exclusion set,
then `select` raises `exc.ConfigError("not all selector processed: %s")`
and the error payload still contains the unprocessed entry (k, v).  The
original, unamended claim omits the default-fragment condition; the
counterexample shows a default fragment with key k silently consuming
the unmatched entry. -/
theorem C3_unmatched_selector_error (F : List Fragment) (S : Dict)
    (k v : String) (excludes : Option (List String))
    (hS : (S.map Prod.fst).Nodup)
    (hmem : (k, v) ∈ S)
    (hnoval : ∀ f ∈ F, f.key = some k → f.value ≠ some v)
    (hnodef : ∀ f ∈ F, f.key = some k → f.isDefault = true →
      exclCheck excludes f = true) :
    ∃ leftover, select F S excludes true true = .error leftover
      ∧ (k, v) ∈ leftover := by
  have h := selectLoop_unconsumed excludes k v F S []
    hmem (fun v' hv' => dict_value_unique S hS k v v' hmem hv') hnoval hnodef
  have hmem2 : (k, v) ∈ (selectRun F S excludes true true).2 := h
  refine ⟨(selectRun F S excludes true true).2, ?_, hmem2⟩
  have hne : (selectRun F S excludes true true).2.isEmpty = false := by
    cases hsel : (selectRun F S excludes true true).2 with
    | nil => rw [hsel] at hmem2; simp at hmem2
    | cons a b => rfl
  simp [select, hne]

/-- Witness for C3 at a concrete input: F = [`a.x.conf`], S = {b: y}: no
fragment matches key `b`, so select raises with {b: y} unprocessed. -/
theorem C3_unmatched_selector_error_witness :
    ∃ leftover, select [fAX] [("b", "y")] none true true
        = Except.error leftover ∧ ("b", "y") ∈ leftover :=
  C3_unmatched_selector_error [fAX] [("b", "y")] "b" "y" none
    (by decide) (by decide) (by decide) (by decide)

/-- C3 counterexample.  F = [`a.default.conf`], S = {a: zzz}: the key `a`
of S is matched by no conditional fragment's (key, value) pair, yet
`select` raises nothing — the default fragment consumes the key and the
unmatched selector entry {a: zzz} is silently dropped. -/
theorem C3_counterexample :
    select [fADef] [("a", "zzz")] none true true
      = Except.ok (SelectResult.one fADef)
    ∧ fADef.key = some "a" ∧ fADef.value ≠ some "zzz" :=
  ⟨rfl, rfl, by decide⟩

/-! ## C8: packaging of the selection result -/

theorem packList_eq_one (l : List Fragment) (f : Fragment)
    (h : packList l = .one f) : l = [f] := by
  match l with
  | [] => simp [packList] at h
  | [g] =>
    simp only [packList, SelectResult.one.injEq] at h
    rw [h]
  | a :: b :: t => simp [packList] at h

theorem packList_eq_many (l m : List Fragment)
    (h : packList l = .many m) : l = m ∧ l.length ≠ 1 := by
  match l with
  | [] =>
    simp only [packList, SelectResult.many.injEq] at h
    exact ⟨h, by simp⟩
  | [g] => simp [packList] at h
  | a :: b :: t =>
    simp only [packList, SelectResult.many.injEq] at h
    exact ⟨h, by simp⟩

/-- C8 (amended).  On success `select` returns the ordered list of
selected fragments only when their number differs from one; when exactly
one fragment is selected, line 130 (`selected[0] if len(selected) == 1
else selected`) returns the bare fragment instead of a one-element list.
Stated: an `ok (one f)` result means the loop selected exactly [f], and
an `ok (many l)` result means the loop selected l with l not a
singleton. -/
theorem C8_single_selection_unwrapped :
    (∀ (F : List Fragment) (S : Dict) (excludes : Option (List String))
        (c d : Bool) (f : Fragment),
      select F S excludes c d = .ok (.one f) →
        (selectRun F S excludes c d).1 = [f])
    ∧ (∀ (F : List Fragment) (S : Dict) (excludes : Option (List String))
        (c d : Bool) (l : List Fragment),
      select F S excludes c d = .ok (.many l) →
        (selectRun F S excludes c d).1 = l ∧ l.length ≠ 1) := by
  constructor
  · intro F S excludes c d f h
    simp only [select] at h
    by_cases he : (selectRun F S excludes c d).2.isEmpty = true
    · rw [if_pos he] at h
      injection h with h2
      exact packList_eq_one _ f h2
    · rw [if_neg he] at h
      exact Except.noConfusion h
  · intro F S excludes c d l h
    simp only [select] at h
    by_cases he : (selectRun F S excludes c d).2.isEmpty = true
    · rw [if_pos he] at h
      injection h with h2
      obtain ⟨h3, h4⟩ := packList_eq_many _ l h2
      exact ⟨h3, h3 ▸ h4⟩
    · rw [if_neg he] at h
      exact Except.noConfusion h

/-- Witness for C8 at a concrete input: a single unconditional fragment
with an empty selector map yields an `ok (one _)` result, and the loop
indeed selected exactly that fragment. -/
theorem C8_single_selection_unwrapped_witness :
    select [fBase] [] none true true = Except.ok (SelectResult.one fBase)
    ∧ (selectRun [fBase] [] none true true).1 = [fBase] :=
  ⟨rfl, C8_single_selection_unwrapped.1 [fBase] [] none true true fBase rfl⟩

/-- C8 counterexample.  With exactly one selected fragment the source
returns the bare `Partial`, not a one-element list: the result is
`one fBase`, which differs from the one-element list result
`many [fBase]` the claim requires. -/
theorem C8_counterexample :
    select [fBase] [] none true true = Except.ok (SelectResult.one fBase)
    ∧ SelectResult.one fBase ≠ SelectResult.many [fBase] :=
  ⟨rfl, fun h => SelectResult.noConfusion h⟩

/-! ## The state store: `State` of config.py -/

/-- Python exceptions that the embedded code can raise. -/
inductive PyErr where
  | typeError
  | valueError
  | keyError
  | indexError
  | attributeError
  | messageError
deriving DecidableEq

/-- The persisted state document: `{select: {...}, set: {...}}`. -/
structure StateDoc where
  select : Dict
  set : Dict
deriving DecidableEq

/-- A Python value as far as the command dispatch of `State.process`
needs it: the incoming command token is a `str`, while the class
constants `SET`, `SELECT`, `SELECT_NEXT`, `SELECT_PREVIOUS` (config.py
lines 55-58) are (name, expected-argument-count) tuples.  Python `==`
between a str and a tuple is False. -/
inductive PyVal where
  | str (s : String)
  | pair (name : String) (arity : Nat)
deriving DecidableEq

def pyEq : PyVal → PyVal → Bool
  | .str a, .str b => a == b
  | .pair a m, .pair b n => a == b && m == n
  | .str _, .pair _ _ => false
  | .pair _ _, .str _ => false

def SET : PyVal := .pair "set" 2

def SELECT : PyVal := .pair "select" 2

def SELECT_NEXT : PyVal := .pair "select-next" 1

def SELECT_PREVIOUS : PyVal := .pair "select-previous" 1

def DEL : String := "del"

def pyLower (s : String) : String := String.mk (s.data.map Char.toLower)

/-- Python `del d[k]`: raises KeyError when the key is absent. -/
def dictDel (d : Dict) (k : String) : Except PyErr Dict :=
  if dictContains d k then .ok (dictErase d k) else .error .keyError

/-- `find(prts, key, value)` of partials.py lines 99-102: linear scan,
first fragment whose key and value match, or None (implicit return).
The function takes three required positional arguments. -/
def findFrag (prts : List Fragment) (key value : String) : Option Fragment :=
  match prts with
  | [] => none
  | p :: rest =>
    if p.key = some key ∧ p.value = some value then some p
    else findFrag rest key value

/-- Python `list.index(x)` as an index search: position of the first
element equal to the probe, else None (the caller maps None to
ValueError). -/
def pyIndexAux {α : Type} [DecidableEq α] (x : α) : List α → Option Nat
  | [] => none
  | a :: rest => if a = x then some 0 else (pyIndexAux x rest).map (· + 1)

/-- Python `items.index(current)`: ValueError when absent. -/
def pyIndex {α : Type} [DecidableEq α] (items : List α) (x : α) :
    Except PyErr Nat :=
  match pyIndexAux x items with
  | some i => .ok i
  | none => .error .valueError

/-- `State._next` (config.py lines 111-116):
`items[items.index(current) + 1]` with IndexError (running past the end)
caught and mapped to `items[0]`.  A `current` not in the list raises
ValueError from `index`, which is not caught.  `items[0]` itself would
raise IndexError on an empty list, but `index` fails first there. -/
def pyNext {α : Type} [DecidableEq α] (current : α) (items : List α) :
    Except PyErr α :=
  match pyIndex items current with
  | .error e => .error e
  | .ok i =>
    match items.get? (i + 1) with
    | some y => .ok y
    | none =>
      match items.get? 0 with
      | some y => .ok y
      | none => .error .indexError

/-- `State._previous` (config.py lines 118-123):
`items[items.index(current) - 1]`; at index 0 Python's negative indexing
returns `items[-1]`, the last element, so the IndexError handler there
is dead code.  A `current` not in the list raises ValueError. -/
def pyPrevious {α : Type} [DecidableEq α] (current : α) (items : List α) :
    Except PyErr α :=
  match pyIndex items current with
  | .error e => .error e
  | .ok i =>
    if i = 0 then
      match items.getLast? with
      | some y => .ok y
      | none => .error .indexError
    else
      match items.get? (i - 1) with
      | some y => .ok y
      | none => .error .indexError

/-- `State.process` (config.py lines 62-92), after the state document has
been fetched, acting on the document, the fragment list and the message
(a list of string tokens).  An empty message returns the state without
persisting; unpacking `command, key, *rest = message` raises ValueError
for a one-token message.  The dispatch at lines 70, 76 and 84 compares
the command string against the (name, arity) tuple constants — `"set" ==
("set", 2)` is False — so none of the branches ever fires and the
unchanged document falls through to `freeze`.  The branch bodies are
embedded nevertheless: inside the set branch `value.lower()` on a missing
value raises AttributeError and `del state["set"][key]` raises KeyError
for an absent key; the select-next/previous branch calls
`partials.find(prts, key)` without the required `value` argument, a
TypeError; in the select branch `value.lower == cls.DEL` compares a bound
method against a string (missing parentheses), which is always False, so
the deletion arm there is also dead and the candidate value (which
`findFrag` guarantees equals `v`) is stored. -/
def processState (state : StateDoc) (prts : List Fragment)
    (message : List String) : Except PyErr StateDoc :=
  match message with
  | [] => .ok state
  | [_] => .error .valueError
  | command :: key :: rest =>
    let value : Option String := rest.head?
    if pyEq (.str command) SET then
      match value with
      | none => .error .attributeError
      | some v =>
        if pyLower v = DEL then
          (dictDel state.set key).map (fun d => StateDoc.mk state.select d)
        else .ok (StateDoc.mk state.select (dictSet state.set key v))
    else if [SELECT_NEXT, SELECT_PREVIOUS].any (fun c => pyEq (.str command) c) then
      .error .typeError
    else if pyEq (.str command) SELECT then
      match value with
      | none => .error .messageError
      | some v =>
        match findFrag prts key v with
        | none => .error .messageError
        | some cand =>
          .ok (StateDoc.mk (dictSet state.select key (cand.value.getD v)) state.set)
    else .ok state

/-- C4 (code divergence).  Processing ['set', key, value] never reaches
the set branch: line 70 compares the command string "set" with the tuple
`("set", 2)`, which is never equal, so the document is re-persisted
unchanged — the set namespace does not receive the new entry.  Also, the
deletion inside the (dead) branch is a bare `del`, which raises KeyError
for an absent key instead of being a no-op. -/
theorem C4_set_command_dead :
    processState (StateDoc.mk [] []) [] ["set", "shmekles", "X"]
        = Except.ok (StateDoc.mk [] [])
    ∧ dictGet (StateDoc.mk [] []).set "shmekles" = none
    ∧ processState (StateDoc.mk [] []) [] ["set", "shmekles", "del"]
        = Except.ok (StateDoc.mk [] [])
    ∧ dictDel ([] : Dict) "shmekles" = Except.error PyErr.keyError :=
  ⟨rfl, rfl, rfl, rfl⟩

def fSchemeA : Fragment := ⟨"scheme.a.conf", ""⟩

def fSchemeB : Fragment := ⟨"scheme.b.conf", ""⟩

/-- C5 (code divergence).  Processing ['select-next', key] (and
['select-previous', key]) performs no advancement: line 76 tests
`command in [SELECT_NEXT, SELECT_PREVIOUS]`, comparing the command
string with (name, arity) tuples, so the branch is dead and the
selection is left unchanged — with candidates scheme.a/scheme.b and
current selection "a", select-next does not advance to "b" and the
wraparound behaviour never executes.  (Were the branch reached, its
first call `partials.find(prts, key)` lacks the required third argument
of `find` and would raise TypeError.) -/
theorem C5_select_next_dead :
    processState (StateDoc.mk [("scheme", "a")] []) [fSchemeA, fSchemeB]
        ["select-next", "scheme"]
        = Except.ok (StateDoc.mk [("scheme", "a")] [])
    ∧ processState (StateDoc.mk [("scheme", "a")] []) [fSchemeA, fSchemeB]
        ["select-previous", "scheme"]
        = Except.ok (StateDoc.mk [("scheme", "a")] [])
    ∧ dictGet ([("scheme", "a")] : Dict) "scheme" = some "a" :=
  ⟨rfl, rfl, rfl⟩

theorem pyIndexAux_eq_none_of_not_mem {α : Type} [DecidableEq α]
    (x : α) (items : List α) (h : x ∉ items) : pyIndexAux x items = none := by
  induction items with
  | nil => rfl
  | cons a rest ih =>
    unfold pyIndexAux
    have ha : ¬ a = x := fun he => h (he ▸ List.mem_cons_self a rest)
    rw [if_neg ha, ih (fun hm => h (List.mem_cons_of_mem a hm))]
    rfl

theorem pyIndexAux_get {α : Type} [DecidableEq α] (x : α) :
    ∀ (items : List α) (i : Nat), pyIndexAux x items = some i →
      items.get? i = some x := by
  intro items
  induction items with
  | nil => intro i h; simp [pyIndexAux] at h
  | cons a rest ih =>
    intro i h
    unfold pyIndexAux at h
    by_cases ha : a = x
    · rw [if_pos ha] at h
      injection h with h2
      rw [← h2]
      simp [ha]
    · rw [if_neg ha] at h
      cases hr : pyIndexAux x rest with
      | none =>
        rw [hr] at h
        exact Option.noConfusion h
      | some j =>
        rw [hr] at h
        have h2 : j + 1 = i := by
          dsimp only [Option.map] at h
          exact Option.some.inj h
        rw [← h2]
        simpa using ih j hr

theorem pyIndexAux_of_get {α : Type} [DecidableEq α] (x : α) :
    ∀ (items : List α), items.Nodup → ∀ i, items.get? i = some x →
      pyIndexAux x items = some i := by
  intro items
  induction items with
  | nil => intro _ i h; simp at h
  | cons a rest ih =>
    intro hnd i h
    rcases List.nodup_cons.mp hnd with ⟨hna, hnd'⟩
    unfold pyIndexAux
    by_cases ha : a = x
    · rw [if_pos ha]
      cases i with
      | zero => rfl
      | succ j =>
        exfalso
        simp only [List.get?_cons_succ] at h
        exact hna (ha ▸ List.get?_mem h)
    · rw [if_neg ha]
      cases i with
      | zero =>
        simp only [List.get?_cons_zero, Option.some.injEq] at h
        exact absurd h ha
      | succ j =>
        simp only [List.get?_cons_succ] at h
        rw [ih hnd' j h]
        rfl

/-- On a duplicate-free candidate list, `_previous` undoes `_next`,
wraparound included: this is the behaviour the select-next /
select-previous commands were meant to drive. -/
theorem pyNext_then_pyPrevious {α : Type} [DecidableEq α]
    (items : List α) (current nxt : α) (hnd : items.Nodup)
    (h : pyNext current items = .ok nxt) :
    pyPrevious nxt items = .ok current := by
  unfold pyNext pyIndex at h
  cases hidx : pyIndexAux current items with
  | none => rw [hidx] at h; exact Except.noConfusion h
  | some i =>
    rw [hidx] at h
    dsimp only at h
    have hget : items.get? i = some current := pyIndexAux_get current items i hidx
    cases hnext : items.get? (i + 1) with
    | some y =>
      rw [hnext] at h
      injection h with h2
      subst h2
      have hIdxNxt : pyIndexAux y items = some (i + 1) :=
        pyIndexAux_of_get y items hnd (i + 1) hnext
      unfold pyPrevious pyIndex
      rw [hIdxNxt]
      simp only [Nat.succ_ne_zero, if_false, Nat.add_sub_cancel]
      rw [hget]
    | none =>
      rw [hnext] at h
      cases h0 : items.get? 0 with
      | none => rw [h0] at h; exact Except.noConfusion h
      | some y0 =>
        rw [h0] at h
        injection h with h2
        subst h2
        have hIdx0 : pyIndexAux y0 items = some 0 :=
          pyIndexAux_of_get y0 items hnd 0 h0
        unfold pyPrevious pyIndex
        rw [hIdx0]
        simp only [if_pos rfl]
        have hlen : i < items.length := by
          cases hl : Nat.decLt i items.length with
          | isTrue hlt => exact hlt
          | isFalse hge =>
            exfalso
            rw [List.get?_eq_none.mpr (Nat.le_of_not_lt hge)] at hget
            exact Option.noConfusion hget
        have hlen2 : items.length ≤ i + 1 := List.get?_eq_none.mp hnext
        have hi : i = items.length - 1 := by omega
        have hlast : items.getLast? = some current := by
          rw [List.getLast?_eq_get?, ← hi]
          exact hget
        rw [hlast]
        simp

/-- C10 (amended).  The candidate-advance helpers `_next` and `_previous`
are total only under the precondition that the probe is an element of the
candidate list: for a current value not among the candidates,
`items.index(current)` raises an uncaught ValueError.  However, in this
source tree processing select-next or select-previous never reaches the
helpers: the dispatch at line 76 compares the command string with the
(name, arity) tuple constants, so `State.process` raises nothing at all
and returns the state unchanged. -/
theorem C10_advance_helpers_precondition :
    (∀ (current : String) (items : List String), current ∉ items →
      pyNext current items = Except.error PyErr.valueError)
    ∧ (∀ (current : String) (items : List String), current ∉ items →
      pyPrevious current items = Except.error PyErr.valueError)
    ∧ (∀ (st : StateDoc) (prts : List Fragment) (key : String),
      processState st prts ["select-next", key] = Except.ok st)
    ∧ (∀ (st : StateDoc) (prts : List Fragment) (key : String),
      processState st prts ["select-previous", key] = Except.ok st) := by
  refine ⟨?_, ?_, ?_, ?_⟩
  · intro current items h
    unfold pyNext pyIndex
    rw [pyIndexAux_eq_none_of_not_mem current items h]
  · intro current items h
    unfold pyPrevious pyIndex
    rw [pyIndexAux_eq_none_of_not_mem current items h]
  · intro st prts key
    rfl
  · intro st prts key
    rfl

/-- Witness for C10 at a concrete input: the persisted selection "gone"
is not among the candidates ["a", "b"], so the helpers raise ValueError
while process returns the state untouched. -/
theorem C10_advance_helpers_precondition_witness :
    pyNext "gone" ["a", "b"] = Except.error PyErr.valueError
    ∧ pyPrevious "gone" ["a", "b"] = Except.error PyErr.valueError
    ∧ processState (StateDoc.mk [("scheme", "gone")] []) [fSchemeA, fSchemeB]
        ["select-next", "scheme"]
        = Except.ok (StateDoc.mk [("scheme", "gone")] []) :=
  ⟨C10_advance_helpers_precondition.1 "gone" ["a", "b"] (by decide),
   C10_advance_helpers_precondition.2.1 "gone" ["a", "b"] (by decide),
   C10_advance_helpers_precondition.2.2.1 (StateDoc.mk [("scheme", "gone")] [])
     [fSchemeA, fSchemeB] "scheme"⟩

/-- C10 counterexample.  The original claim asserts that processing
select-next with a persisted selection not among the key's candidates
raises an unhandled ValueError; in this source tree the dead dispatch
means process raises nothing and leaves the stale selection in place. -/
theorem C10_counterexample :
    processState (StateDoc.mk [("scheme", "zombie")] []) [fSchemeA, fSchemeB]
        ["select-next", "scheme"]
        = Except.ok (StateDoc.mk [("scheme", "zombie")] [])
    ∧ fSchemeA.value ≠ some "zombie" ∧ fSchemeB.value ≠ some "zombie" :=
  ⟨rfl, by decide, by decide⟩

/-! ## Build definitions: lib.py -/

/-- A build definition as constructed by `BuildDef.__init__` (lib.py
lines 94-115) from already-parsed configuration values; `lastFilename`
and `lastBuild` start as None and timestamps are modelled as exact
rationals (seconds). -/
structure BuildDefM where
  name : String
  target : String
  sources : List String
  addheader : Bool
  addinfo : Bool
  suffix : String
  themes : List String
  excludes : List String
  files : List String
  theme : Option String
  lastFilename : Option String
  lastBuild : Option ℚ
deriving DecidableEq

/-- `BuildDef.__init__`: a total constructor — it performs no
files/excludes mutual-exclusion check and always succeeds.
`check_sanity` exists (lib.py lines 192-195) but is invoked neither here
nor anywhere else in the repository. -/
def mkBuildDef (name target : String) (sources : List String)
    (addheader addinfo : Bool) (sfx : String) (themes : List String)
    (excl fls : List String) (theme : Option String) : BuildDefM :=
  BuildDefM.mk name target sources addheader addinfo sfx themes excl fls
    theme none none

/-- lib.py line 113: `self.watchPaths = self.themes + self.sources`. -/
def BuildDefM.watchPaths (bd : BuildDefM) : List String :=
  bd.themes ++ bd.sources

inductive BuildDefError where
  | filesAndExcludes
deriving DecidableEq

/-- `BuildDef.check_sanity` (lib.py lines 192-195): raises BuildDefError
when both the `files` allow-list and the `excludes` set are populated. -/
def checkSanity (bd : BuildDefM) : Except BuildDefError Unit :=
  if ¬ bd.files.isEmpty ∧ ¬ bd.excludes.isEmpty then .error .filesAndExcludes
  else .ok ()

def insertSorted (x : String) : List String → List String
  | [] => [x]
  | a :: rest => if x ≤ a then x :: a :: rest else a :: insertSorted x rest

/-- Python `sorted` on file names (ascending). -/
def pySorted : List String → List String
  | [] => []
  | a :: rest => insertSorted a (pySorted rest)

/-- The per-file filter of `BuildDef.get_config_parts` (lib.py lines
174-190) over a source-directory listing of file names: skip names in
`excludes` (the source tests this twice), names with the wrong suffix
and, when the `files` allow-list is non-empty, names not in it; the kept
names are returned sorted.  It applies both the `excludes` and the
`files` filter when both are populated. -/
def getConfigPartsNames (bd : BuildDefM) (listing : List String) : List String :=
  pySorted (listing.filter (fun n =>
    !bd.excludes.contains n
    && decide (String.mk (pySuffixChars n.data) = bd.suffix)
    && (bd.files.isEmpty || bd.files.contains n)))

/-- A build definition configured with both filters populated. -/
def bdBoth : BuildDefM :=
  mkBuildDef "cfg" "tgt" ["srcdir"] true true ".conf" ["thm"]
    ["ex.conf"] ["al.conf"] none

/-- C7 (code divergence).  A definition with both `files` and `excludes`
populated is constructed without any error — `mkBuildDef` is total and
nothing invokes `check_sanity`, which would reject it — and its
directory filter happily assembles a build applying both filters. -/
theorem C7_both_filters_build :
    bdBoth = mkBuildDef "cfg" "tgt" ["srcdir"] true true ".conf" ["thm"]
      ["ex.conf"] ["al.conf"] none
    ∧ checkSanity bdBoth = Except.error BuildDefError.filesAndExcludes
    ∧ getConfigPartsNames bdBoth ["al.conf", "ex.conf", "other.conf"]
        = ["al.conf"]
    ∧ bdBoth.files = ["al.conf"] ∧ bdBoth.excludes = ["ex.conf"] :=
  ⟨rfl, rfl, by decide, rfl, rfl⟩

/-- Python pathlib.Path never compares equal to a str: the membership
test `path.stem not in self.watchPaths` (lib.py line 140) asks whether
the stem string equals one of the Path objects in `watchPaths`, which is
False for every element. -/
def pyPathEqStr (p s : String) : Bool := false

/-- `BuildDef.matches` (lib.py lines 136-141), carrying the source's own
FIXME "this is just a placeholder - likely wrong check".  It tests the
file's stem (not its directory) against `watchPaths`, and when both
checks pass it falls off the end returning None. -/
def matchesM (bd : BuildDefM) (filename : String) : Option Bool :=
  if String.mk (pySuffixChars filename.data) ≠ bd.suffix then some false
  else if !(bd.watchPaths.any (fun wp =>
      pyPathEqStr wp (String.mk (pyStemChars filename.data)))) then some false
  else none

/-- `BuildDef.needs_build` (lib.py lines 123-134) as invoked: its first
statement calls `self.matches(filename, watchPath)` with two arguments,
but `matches` accepts a single positional argument (line 136), so every
call raises TypeError before any debounce logic runs. -/
def needs_buildM (bd : BuildDefM) (filename watchPath : String) :
    Except PyErr Bool :=
  .error .typeError

def BUILD_DELAY : ℚ := 1 / 10

/-- The body of `needs_build` (lib.py lines 124-134) as it would execute
were the arity of the `matches` call repaired: `if not self.matches(...)`
treats the None and False results alike, then the first-build,
changed-file and debounce checks run in order. -/
def needs_buildBody (bd : BuildDefM) (filename : String) (now : ℚ) : Bool :=
  match matchesM bd filename with
  | some true =>
    match bd.lastBuild with
    | none => true
    | some t =>
      if bd.lastFilename ≠ some filename then true
      else if now - t ≥ BUILD_DELAY then true
      else false
  | some false => false
  | none => false

theorem any_const_false {α : Type} (l : List α) :
    (l.any (fun _ => false)) = false := by
  induction l with
  | nil => rfl
  | cons a rest ih => simp [List.any_cons, ih]

/-- C6 (code divergence).  `needs_build` never returns True on any event:
as written it raises TypeError on every call (arity of the `matches`
call), and even with the call repaired, `matches` never produces a truthy
value — the stem-against-Path membership test always fails — so the
guard `if not self.matches(...)` always returns False before the
first-build / changed-file / debounce logic can run. -/
theorem C6_needs_build_never_fires :
    (∀ (bd : BuildDefM) (filename watchPath : String),
      needs_buildM bd filename watchPath = Except.error PyErr.typeError)
    ∧ (∀ (bd : BuildDefM) (filename : String) (now : ℚ),
      needs_buildBody bd filename now = false) := by
  constructor
  · intro bd filename watchPath
    rfl
  · intro bd filename now
    have hany : bd.watchPaths.any (fun wp =>
        pyPathEqStr wp (String.mk (pyStemChars filename.data))) = false := by
      have : (fun wp => pyPathEqStr wp (String.mk (pyStemChars filename.data)))
          = (fun _ => false) := by
        funext wp
        rfl
      rw [this, any_const_false]
    have hm : matchesM bd filename = some false := by
      unfold matchesM
      by_cases hs : String.mk (pySuffixChars filename.data) ≠ bd.suffix
      · rw [if_pos hs]
      · rw [if_neg hs, hany]
        rfl
    unfold needs_buildBody
    rw [hm]

/-! ## Content views of a fragment: `_joined`, `filtered`, `payload`,
`display` of partials.py -/

def COMMENT_MARK : String := "#"

def END_OF_LINE_COMMENT_MARK : String := " # "

/-- Attempts the remainder of the continuation pattern
`\\\s*?\\s*?\n` (partials.py line 14) after an initial backslash has
been consumed: lazily any whitespace, then a second literal backslash
(the intended `\s` class is escaped into a literal backslash and a
literal `s`), then lazily any letters `s`, then a newline; returns the
rest of the input after the newline on a match.  In particular a single
backslash before a newline — the actual i3 continuation syntax — does
not match. -/
def contTail (cs : List Char) : Option (List Char) :=
  match cs.dropWhile pySpace with
  | '\\' :: rest =>
    match rest.dropWhile (fun c => c = 's') with
    | '\n' :: rest2 => some rest2
    | _ => none
  | _ => none

/-- `re.sub` of the continuation pattern with a single space
(`Partial._joined`, partials.py lines 76-81), scanning left to right
over non-overlapping matches.  The fuel argument is initialised with the
input length, which bounds the number of steps since every step consumes
at least one character. -/
def joinedAux : Nat → List Char → List Char
  | 0, cs => cs
  | _ + 1, [] => []
  | fuel + 1, c :: cs =>
    if c = '\\' then
      match contTail cs with
      | some rest => ' ' :: joinedAux fuel rest
      | none => c :: joinedAux fuel cs
    else c :: joinedAux fuel cs

def joinedChars (cs : List Char) : List Char := joinedAux cs.length cs

/-- `Partial._joined` for a fragment, as a character list. -/
def Fragment.joinedL (f : Fragment) : List Char := joinedChars f.raw.data

/-- Python `'\n'.join(lines)`. -/
def joinLines (xs : List (List Char)) : List Char :=
  match xs with
  | [] => []
  | [x] => x
  | x :: y :: rest => x ++ '\n' :: joinLines (y :: rest)

/-- Keep test of `filtered` (partials.py lines 50-60) for one line: the
stripped line is non-blank and starts with neither the set marker nor
the comment marker; kept lines stay unstripped. -/
def filteredKeep (line : List Char) : Bool :=
  let l := pyStrip line
  !l.isEmpty && !(SET_MARK.data.isPrefixOf l) && !(COMMENT_MARK.data.isPrefixOf l)

/-- `Partial.filtered` (partials.py lines 50-60) as a character list. -/
def Fragment.filteredL (f : Fragment) : List Char :=
  joinLines ((pySplitlines f.joinedL).filter filteredKeep)

def Fragment.filtered (f : Fragment) : String := String.mk f.filteredL

/-- Index of the last occurrence of `pat` in `s`, if any. -/
def lastIdx (pat s : List Char) : Option Nat :=
  ((List.range (s.length + 1)).filter (fun i => pat.isPrefixOf (s.drop i))).getLast?

/-- Python `line.rsplit(' # ', maxsplit=1)[0]` (partials.py line 72): the
prefix before the last occurrence of the end-of-line comment marker, or
the whole line when the marker is absent. -/
def rsplitTrunc (line : List Char) : List Char :=
  match lastIdx END_OF_LINE_COMMENT_MARK.data line with
  | some i => line.take i
  | none => line

/-- Per-line behaviour of `payload` (partials.py lines 62-74): blank
lines and comment lines are dropped — set-marker lines are kept, unlike
in `filtered` — and the trailing end-of-line comment is stripped. -/
def payloadLine (line : List Char) : Option (List Char) :=
  let l := pyStrip line
  if l.isEmpty then none
  else if COMMENT_MARK.data.isPrefixOf l then none
  else some (rsplitTrunc line)

/-- `Partial.payload` (partials.py lines 62-74) as a character list. -/
def Fragment.payloadL (f : Fragment) : List Char :=
  joinLines ((pySplitlines f.joinedL).filterMap payloadLine)

def Fragment.payload (f : Fragment) : String := String.mk f.payloadL

/-- `Partial.display` (partials.py lines 44-48): the empty string when
`filtered` is empty, else the `filtered` content — not `payload` —
wrapped in the banner `"### %s ###\n%s\n\n" % (path.name, filtered)`. -/
def Fragment.displayL (f : Fragment) : List Char :=
  if f.filteredL.isEmpty then []
  else "### ".data ++ f.name.data ++ " ###\n".data ++ f.filteredL ++ "\n\n".data

def Fragment.display (f : Fragment) : String := String.mk f.displayL

theorem stringMk_eq_empty_iff (l : List Char) : String.mk l = "" ↔ l = [] := by
  constructor
  · intro h
    have h2 := congrArg String.data h
    exact h2
  · intro h
    rw [h]

theorem joinLines_eq_nil_iff (xs : List (List Char)) :
    joinLines xs = [] ↔ xs = [] ∨ xs = [[]] := by
  match xs with
  | [] => simp [joinLines]
  | [x] => simp [joinLines]
  | x :: y :: rest => simp [joinLines]

theorem filteredKeep_nonempty (line : List Char)
    (h : filteredKeep line = true) : line ≠ [] := by
  intro he
  subst he
  simp [filteredKeep, pyStrip] at h

theorem filteredL_eq_nil_iff (f : Fragment) :
    f.filteredL = [] ↔ (pySplitlines f.joinedL).filter filteredKeep = [] := by
  unfold Fragment.filteredL
  rw [joinLines_eq_nil_iff]
  constructor
  · rintro (h | h)
    · exact h
    · exfalso
      have hmem : ([] : List Char) ∈ (pySplitlines f.joinedL).filter filteredKeep := by
        rw [h]
        exact List.mem_singleton.mpr rfl
      exact filteredKeep_nonempty [] (List.mem_filter.mp hmem).2 rfl
  · intro h
    exact Or.inl h

theorem displayL_eq_nil_iff (f : Fragment) :
    f.displayL = [] ↔ f.filteredL = [] := by
  unfold Fragment.displayL
  by_cases h : f.filteredL.isEmpty = true
  · rw [if_pos h]
    simp only [List.isEmpty_iff] at h
    simp [h]
  · rw [if_neg h]
    constructor
    · intro hh
      rw [List.append_assoc, List.append_assoc, List.append_assoc] at hh
      have := (List.append_eq_nil.mp hh).1
      exact absurd this (by decide)
    · intro hh
      rw [hh] at h
      exact absurd rfl h

/-- C9 (amended).  The display view equals the fragment's `filtered`
content — blank lines, comment lines and internal set-marker lines
removed, end-of-line comments retained — wrapped in a banner comment
naming the source file, and equals the empty string exactly when
`filtered` is empty, i.e. exactly when every line of the
continuation-joined raw content is blank, a comment or a set directive.
The original claim names `payload` (which strips end-of-line comments
and keeps set-marker lines) instead of `filtered`; the counterexample
separates the two. -/
theorem C9_display_wraps_filtered (f : Fragment) :
    (f.display = "" ↔ (pySplitlines f.joinedL).filter filteredKeep = [])
    ∧ (f.filteredL.isEmpty = false →
      f.displayL = "### ".data ++ f.name.data ++ " ###\n".data
        ++ f.filteredL ++ "\n\n".data)
    ∧ (f.display = "" ↔ f.filtered = "") := by
  refine ⟨?_, ?_, ?_⟩
  · rw [Fragment.display, stringMk_eq_empty_iff, displayL_eq_nil_iff,
      filteredL_eq_nil_iff]
  · intro h
    unfold Fragment.displayL
    rw [if_neg (by rw [h]; exact Bool.noConfusion)]
  · rw [Fragment.display, Fragment.filtered, stringMk_eq_empty_iff,
      stringMk_eq_empty_iff, displayL_eq_nil_iff]

def fEol : Fragment := ⟨"binds.conf", "bindsym Mod1+q kill # close window"⟩

def fSet : Fragment := ⟨"vars.conf", "set $mod Mod4"⟩

/-- Witness for C9 at a concrete input: a fragment whose single line
carries an end-of-line comment; its display is the banner around the
`filtered` view. -/
theorem C9_display_wraps_filtered_witness :
    fEol.displayL = "### ".data ++ fEol.name.data ++ " ###\n".data
      ++ fEol.filteredL ++ "\n\n".data
    ∧ (fEol.display = "" ↔ fEol.filtered = "") :=
  ⟨(C9_display_wraps_filtered fEol).2.1 (by decide),
   (C9_display_wraps_filtered fEol).2.2⟩

/-- C9 counterexample.  For the fragment `binds.conf` with content
`bindsym Mod1+q kill # close window`, the display wraps the `filtered`
text, which retains the end-of-line comment, and differs from the
payload wrapped in the banner; and for `vars.conf` with content
`set $mod Mod4`, the display is empty while the payload is not, so
"display is empty exactly when payload is empty" also fails. -/
theorem C9_counterexample :
    fEol.payload = "bindsym Mod1+q kill"
    ∧ fEol.filtered = "bindsym Mod1+q kill # close window"
    ∧ fEol.display
        = "### binds.conf ###\nbindsym Mod1+q kill # close window\n\n"
    ∧ fEol.display
        ≠ "### binds.conf ###\nbindsym Mod1+q kill\n\n"
    ∧ fSet.display = "" ∧ fSet.payload = "set $mod Mod4" := by
  refine ⟨rfl, rfl, rfl, by decide, rfl, rfl⟩

end I3C
